import Mathlib

/-!
Verification development for the cf-worker-api repository.

The repository is a Cloudflare Worker exposing AI model invocation and
person-detection endpoints.  This file gives a shallow embedding of the
functions the verified properties are about:

* `src/routes/vision.ts` — DETR bounding-box person detection
  (`hasPerson`, `extractAreaRatio`, `normalizedArea`, `numberOrUndefined`,
  `isAvif`, `maybeTranscodeAvif`, `fetchImageBuffer`);
* the Llama vision route — `normalizeImageBytes`, `normalizeMimeType`,
  `detectMimeType`, `extractIsPersonResult`, `parseJsonFromText`,
  `normalizeIsPerson`, and the extraction step of `detectPersonWithLlama`;
* `src/utils/timeout.ts` — `withTimeout`, `DEFAULT_AI_TIMEOUT_MS`;
* the AI service — `runAiModel`, `isErrorResponse`;
* the api-key middleware — `apiKeyAuth`;
* the error type — `AiRunError`.

JavaScript numbers are modelled by `JsNum`: an exact rational for finite
values plus NaN and the two infinities.  Finite arithmetic is idealized as
exact rational arithmetic (no rounding, no overflow); comparisons follow
JavaScript semantics (every comparison with NaN is false).  JavaScript
values reaching the functions above are modelled by `JsonVal`; an absent
object property is `Option.none` (JavaScript `undefined`).
-/


/-- Model of a JavaScript number: an exact rational when finite, plus
NaN and the two infinities.  Finite arithmetic is exact (overflow of
`double` arithmetic is not modelled). -/
inductive JsNum where
  | fin (q : ℚ)
  | nan
  | inf
  | ninf
deriving DecidableEq

/-- `Number.isFinite`. -/
def JsNum.isFinite : JsNum → Bool
  | .fin _ => true
  | _ => false

/-- JavaScript `<` on numbers: false whenever either side is NaN. -/
def JsNum.lt : JsNum → JsNum → Bool
  | .nan, _ => false
  | _, .nan => false
  | .fin a, .fin b => decide (a < b)
  | .fin _, .inf => true
  | .fin _, .ninf => false
  | .inf, _ => false
  | .ninf, .ninf => false
  | .ninf, _ => true

/-- JavaScript `<=` on numbers: false whenever either side is NaN. -/
def JsNum.le : JsNum → JsNum → Bool
  | .nan, _ => false
  | _, .nan => false
  | .fin a, .fin b => decide (a ≤ b)
  | .fin _, .inf => true
  | .fin _, .ninf => false
  | .inf, .inf => true
  | .inf, _ => false
  | .ninf, _ => true

/-- The guard of `withTimeout` and of the `timeoutMs` option of
`runAiModel`: `Number.isFinite(v) && v > 0`. -/
def JsNum.isPosFinite : JsNum → Bool
  | .fin q => decide (0 < q)
  | _ => false

/-- Model of a JavaScript/JSON value.  `Option.none` at a use site stands
for JavaScript `undefined` (e.g. an absent object property). -/
inductive JsonVal where
  | null
  | bool (b : Bool)
  | num (n : JsNum)
  | str (s : String)
  | arr (items : List JsonVal)
  | obj (fields : List (String × JsonVal))

/-- First-match lookup of a property in an object's field list. -/
def lookupStr : List (String × JsonVal) → String → Option JsonVal
  | [], _ => none
  | (k, v) :: rest, key => if k = key then some v else lookupStr rest key

/-- Property access `v[key]`: `some` only on objects holding the key,
`none` (JavaScript `undefined`) otherwise. -/
def getField (v : JsonVal) (key : String) : Option JsonVal :=
  match v with
  | .obj fields => lookupStr fields key
  | _ => none

/-- `value && typeof value === 'object'`: true exactly for (non-null)
objects and arrays. -/
def isObjectLike : JsonVal → Bool
  | .obj _ => true
  | .arr _ => true
  | _ => false

/-- JavaScript truthiness of a value. -/
def jsTruthy : JsonVal → Bool
  | .null => false
  | .bool b => b
  | .num (.fin q) => decide (q ≠ 0)
  | .num .nan => false
  | .num _ => true
  | .str s => decide (s ≠ "")
  | .arr _ => true
  | .obj _ => true

/-- JavaScript `a ?? b` applied to possibly-absent property reads:
falls through on `undefined` (`none`) and on `null`. -/
def jsCoalesce (a b : Option JsonVal) : Option JsonVal :=
  match a with
  | some .null => b
  | some v => some v
  | none => b

/-- vision.ts `numberOrUndefined`: keep a finite number, drop everything
else.  The kept value is returned as its exact rational. -/
def numberOrUndefined : Option JsonVal → Option ℚ
  | some (.num (.fin q)) => some q
  | _ => none

/-- vision.ts `normalizedArea`: `null` when a dimension is non-finite,
non-positive or greater than 1, otherwise `width * height`. -/
def normalizedArea (width height : JsNum) : Option JsNum :=
  if ¬ (width.isFinite && height.isFinite) = true then none
  else
    match width, height with
    | .fin w, .fin h =>
        if w ≤ 0 ∨ h ≤ 0 then none
        else if 1 < w ∨ 1 < h then none
        else some (.fin (w * h))
    | _, _ => none

/-- The corner-pair extraction of vision.ts `extractAreaRatio`
(lines 497-508): each coordinate is the first present of its aliases,
kept only when it is a finite number.  Note the `x2` chain falls back to
`x1` and the `y2` chain to `y1`, exactly as in the source. -/
def cornerCoords (box : JsonVal) : Option (ℚ × ℚ × ℚ × ℚ) :=
  let x1 := numberOrUndefined (jsCoalesce (getField box "xmin")
    (jsCoalesce (getField box "x1") (jsCoalesce (getField box "left") (getField box "x0"))))
  let y1 := numberOrUndefined (jsCoalesce (getField box "ymin")
    (jsCoalesce (getField box "y1") (jsCoalesce (getField box "top") (getField box "y0"))))
  let x2 := numberOrUndefined (jsCoalesce (getField box "xmax")
    (jsCoalesce (getField box "x2") (jsCoalesce (getField box "right") (getField box "x1"))))
  let y2 := numberOrUndefined (jsCoalesce (getField box "ymax")
    (jsCoalesce (getField box "y2") (jsCoalesce (getField box "bottom") (getField box "y1"))))
  match x1, y1, x2, y2 with
  | some a, some b, some c, some d => some (a, b, c, d)
  | _, _, _, _ => none

/-- vision.ts `extractAreaRatio`: area ratio of a detection record's
`box`, or `none` when no convention yields one. -/
def extractAreaRatio (record : JsonVal) : Option JsNum :=
  match getField record "box" with
  | none => none
  | some box =>
    if ¬ isObjectLike box = true then none
    else
      match cornerCoords box with
      | some (x1, y1, x2, y2) => normalizedArea (.fin (x2 - x1)) (.fin (y2 - y1))
      | none =>
        match numberOrUndefined (jsCoalesce (getField box "w") (getField box "width")),
              numberOrUndefined (jsCoalesce (getField box "h") (getField box "height")) with
        | some w, some h => normalizedArea (.fin w) (.fin h)
        | _, _ =>
          match box with
          | .arr items =>
            if 4 ≤ items.length then
              match numberOrUndefined (items.get? 0), numberOrUndefined (items.get? 1),
                    numberOrUndefined (items.get? 2), numberOrUndefined (items.get? 3) with
              | some b1, some b2, some b3, some b4 =>
                  normalizedArea (.fin (b3 - b1)) (.fin (b4 - b2))
              | _, _, _, _ => none
            else none
          | _ => none

/-- The predicate of the `result.some(...)` callback in vision.ts
`hasPerson`, named so it can be reasoned about. -/
def personMatch (threshold minRatio : JsNum) (item : JsonVal) : Bool :=
  if ¬ isObjectLike item = true then false
  else
    match getField item "label", getField item "score" with
    | some (.str l), some (.num s) =>
        if l ≠ "person" then false
        else if JsNum.lt s threshold then false
        else
          match extractAreaRatio item with
          | none => true
          | some ratio => JsNum.le minRatio ratio
    | _, _ => false

/-- vision.ts `hasPerson`: true iff the model result is an array with
some element passing `personMatch`. -/
def hasPerson (result : JsonVal) (threshold minRatio : JsNum) : Bool :=
  match result with
  | .arr items => items.any (personMatch threshold minRatio)
  | _ => false

/-- The single detection of the bounding-box scenario of the claims:
label person, score 0.9, box corners (0.1, 0.1)-(0.5, 0.5). -/
def exampleDetection : JsonVal :=
  .obj [("label", .str "person"), ("score", .num (.fin (9/10))),
        ("box", .obj [("xmin", .num (.fin (1/10))), ("ymin", .num (.fin (1/10))),
                      ("xmax", .num (.fin (1/2))), ("ymax", .num (.fin (1/2)))])]

/-- The six error codes of `AiErrorCode` (src/utils/ai-errors.ts). -/
inductive AiErrorCode where
  | INVALID_INPUT
  | UNAUTHORIZED
  | FORBIDDEN
  | AI_RUN_TIMEOUT
  | AI_RUN_EXCEPTION
  | AI_RUN_RESPONSE_ERROR
deriving DecidableEq

/-- `AiRunError` (src/utils/ai-errors.ts): the fields the verified
properties are about.  `message`, `traceId` and `cause` carry no verified
content and are omitted; `durationMs` and `raw` are `none` when the
constructor call does not set them. -/
structure AiRunErr where
  code : AiErrorCode
  status : ℕ
  durationMs : Option ℚ
  raw : Option JsonVal

/-- A JavaScript exception as classified by the `catch` blocks of the
repository: a `TimeoutError` (carrying its `timeoutMs`), an `AiRunError`,
or anything else. -/
inductive JsError where
  | timeout (timeoutMs : JsNum)
  | aiRun (e : AiRunErr)
  | other (msg : String)

/-- Model of an in-flight promise: the instant (ms from its creation) at
which it settles — `none` when it never settles — and the outcome it
settles with (meaningful only when it settles). -/
structure AsyncOp where
  settlesAt : Option ℚ
  outcome : Except JsError JsonVal

/-- Timers armed and cleared by one `withTimeout` call. -/
structure TimerCount where
  armed : ℕ
  cleared : ℕ
deriving DecidableEq

/-- src/utils/timeout.ts `DEFAULT_AI_TIMEOUT_MS` (60 000 ms). -/
def DEFAULT_AI_TIMEOUT_MS : ℚ := 60000

/-- src/utils/timeout.ts `withTimeout`: a non-positive or non-finite
deadline returns the promise unchanged with no timer; otherwise one timer
is armed, the race settles with the promise's outcome if it settles by
the deadline and with a `TimeoutError(timeoutMs)` otherwise, and the
`finally` clears the timer on every path.  When the promise settles at
exactly the deadline the model lets the promise win the race. -/
def withTimeout (promise : AsyncOp) (timeoutMs : JsNum) : AsyncOp × TimerCount :=
  match timeoutMs with
  | .fin q =>
      if q ≤ 0 then (promise, ⟨0, 0⟩)
      else
        match promise.settlesAt with
        | some t =>
            if t ≤ q then (⟨some t, promise.outcome⟩, ⟨1, 1⟩)
            else (⟨some q, .error (.timeout (.fin q))⟩, ⟨1, 1⟩)
        | none => (⟨some q, .error (.timeout (.fin q))⟩, ⟨1, 1⟩)
  | _ => (promise, ⟨0, 0⟩)

/-- ai-service `isErrorResponse`: an object with `success === false` or a
non-empty `errors` array. -/
def isErrorResponse (value : JsonVal) : Bool :=
  if ¬ isObjectLike value = true then false
  else
    match getField value "success" with
    | some (.bool false) => true
    | _ =>
      match getField value "errors" with
      | some (.arr es) => decide (0 < es.length)
      | _ => false

/-- The `effectiveTimeoutMs` computation of ai-service `runAiModel`: the
caller's `timeoutMs` when it is a positive finite number, else
`DEFAULT_AI_TIMEOUT_MS`. -/
def effectiveTimeoutMs : Option JsNum → ℚ
  | some (.fin q) => if 0 < q then q else DEFAULT_AI_TIMEOUT_MS
  | _ => DEFAULT_AI_TIMEOUT_MS

/-- ai-service `runAiModel`, over a model of the `ai.run` promise.
`durationMs` (in the source `Date.now() - startedAt`) is modelled as the
instant the guarded call settles.  The result is `none` when the guarded
call never settles — provably impossible, since the effective deadline is
always positive. -/
def runAiModel (run : AsyncOp) (timeoutMs : Option JsNum) : Option (Except AiRunErr JsonVal) :=
  let eff := effectiveTimeoutMs timeoutMs
  let guarded := (withTimeout run (.fin eff)).1
  match guarded.settlesAt with
  | none => none
  | some t =>
      match guarded.outcome with
      | .ok result =>
          if isErrorResponse result then
            some (.error ⟨.AI_RUN_RESPONSE_ERROR, 502, some t, some result⟩)
          else some (.ok result)
      | .error e =>
          match e with
          | .aiRun ae => some (.error ae)
          | .timeout _ => some (.error ⟨.AI_RUN_TIMEOUT, 504, some t, none⟩)
          | .other _ => some (.error ⟨.AI_RUN_EXCEPTION, 500, some t, none⟩)

/-- vision.ts `MAX_IMAGE_BYTES` (10 MiB). -/
def MAX_IMAGE_BYTES : ℕ := 10 * 1024 * 1024

/-- The settled `fetch` response seen by `fetchImageBuffer`:
`contentLength` models `Number(header)` for a present, non-empty
`content-length` header (`none` when the header is absent or empty). -/
structure FetchResponse where
  ok : Bool
  status : ℕ
  contentLength : Option ℚ
  bodyByteLength : ℕ
  contentType : Option String

/-- How the guarded `fetch` of `fetchImageBuffer` ends: with a response,
with the abort `DOMException` of the 15 s timer, or with any other
transport failure. -/
inductive FetchOutcome where
  | response (r : FetchResponse)
  | abortError
  | otherFailure

/-- vision.ts `fetchImageBuffer` (the identical copy exists in the Llama
route): validation and error classification of the image fetch.  On
success it returns the body length and the `content-type` header. -/
def fetchImageBuffer (o : FetchOutcome) : Except AiRunErr (ℕ × Option String) :=
  match o with
  | .response r =>
      if r.ok = false then .error ⟨.INVALID_INPUT, 502, none, none⟩
      else if (match r.contentLength with
               | some n => decide ((MAX_IMAGE_BYTES : ℚ) < n)
               | none => false) then .error ⟨.INVALID_INPUT, 400, none, none⟩
      else if MAX_IMAGE_BYTES < r.bodyByteLength then .error ⟨.INVALID_INPUT, 400, none, none⟩
      else .ok (r.bodyByteLength, r.contentType)
  | .abortError => .error ⟨.AI_RUN_TIMEOUT, 504, none, none⟩
  | .otherFailure => .error ⟨.AI_RUN_EXCEPTION, 502, none, none⟩

/-- The brand offsets scanned by `isAvif`. -/
def avifBrandOffsets : List ℕ := [8, 12, 16, 20, 24, 28]

/-- vision.ts / Llama route `isAvif`: a declared content-type containing
`image/avif` (case-insensitively), or an `ftyp` box at offset 4 of the
first 32 bytes with brand `avif` or `avis` at one of the scanned offsets.
The source compares `String.fromCharCode` of the four brand bytes with
the literals; the model compares the byte values directly. -/
def isAvif (buffer : List ℕ) (contentType : Option String) : Bool :=
  if (match contentType with
      | some ct => ct.toLower.toList.tails.any fun t => ("image/avif".toList).isPrefixOf t
      | none => false) then true
  else
    let bytes := buffer.take 32
    if bytes.length < 12 then false
    else if (bytes.getD 4 0 == 0x66) && (bytes.getD 5 0 == 0x74)
         && (bytes.getD 6 0 == 0x79) && (bytes.getD 7 0 == 0x70) then
      avifBrandOffsets.any fun offset =>
        if bytes.length < offset + 4 then false
        else (bytes.getD offset 0 == 0x61) && (bytes.getD (offset + 1) 0 == 0x76)
          && (bytes.getD (offset + 2) 0 == 0x69)
          && ((bytes.getD (offset + 3) 0 == 0x66) || (bytes.getD (offset + 3) 0 == 0x73))
    else false

/-- Outcome of the `decodeAvif` / `encodePng` pipeline, modelled as an
opaque capability: either the re-encoded PNG bytes or a thrown decode or
encode failure. -/
inductive AvifTranscode where
  | success (pngBytes : List ℕ)
  | failure

/-- vision.ts `maybeTranscodeAvif`: non-AVIF input passes through
unchanged; AVIF input is replaced by the transcoder's PNG output, and a
transcoder failure becomes `INVALID_INPUT` (400). -/
def maybeTranscodeAvif (buffer : List ℕ) (contentType : Option String)
    (transcode : AvifTranscode) : Except AiRunErr (List ℕ) :=
  if isAvif buffer contentType = false then .ok buffer
  else
    match transcode with
    | .success png => .ok png
    | .failure => .error ⟨.INVALID_INPUT, 400, none, none⟩

/-- Llama route `detectMimeType`: magic-byte sniffing of PNG, JPEG, GIF
and WEBP signatures over the first bytes; `none` when nothing matches or
fewer than 12 bytes are available. -/
def detectMimeType (bytes : List ℕ) : Option String :=
  if 12 ≤ bytes.length then
    if (bytes.getD 0 0 == 0x89) && (bytes.getD 1 0 == 0x50)
       && (bytes.getD 2 0 == 0x4e) && (bytes.getD 3 0 == 0x47) then some "image/png"
    else if (bytes.getD 0 0 == 0xff) && (bytes.getD 1 0 == 0xd8) then some "image/jpeg"
    else if (bytes.getD 0 0 == 0x47) && (bytes.getD 1 0 == 0x49)
       && (bytes.getD 2 0 == 0x46) then some "image/gif"
    else if (bytes.getD 0 0 == 0x52) && (bytes.getD 1 0 == 0x49)
       && (bytes.getD 2 0 == 0x46) && (bytes.getD 3 0 == 0x46)
       && (bytes.getD 8 0 == 0x57) && (bytes.getD 9 0 == 0x45)
       && (bytes.getD 10 0 == 0x42) && (bytes.getD 11 0 == 0x50) then some "image/webp"
    else none
  else none

/-- Llama route `normalizeMimeType`: trust a truthy declared type whose
`split(';')[0].trim().toLowerCase()` starts with `image/`; otherwise
sniff, defaulting to `image/png`. -/
def normalizeMimeType (contentType : Option String) (bytes : List ℕ) : String :=
  match contentType with
  | some ct =>
      if ct ≠ "" then
        let normalized := (((ct.splitOn ";").headD ct).trim).toLower
        if normalized.startsWith "image/" then normalized
        else (detectMimeType bytes).getD "image/png"
      else (detectMimeType bytes).getD "image/png"
  | none => (detectMimeType bytes).getD "image/png"

/-- Llama route `normalizeImageBytes`: AVIF input is transcoded to PNG
bytes with content type `image/png` (a transcoder failure is
`INVALID_INPUT`, 400); anything else passes through with its resolved
MIME type. -/
def normalizeImageBytes (buffer : List ℕ) (contentType : Option String)
    (transcode : AvifTranscode) : Except AiRunErr (List ℕ × String) :=
  if isAvif buffer contentType = true then
    match transcode with
    | .success png => .ok (png, "image/png")
    | .failure => .error ⟨.INVALID_INPUT, 400, none, none⟩
  else .ok (buffer, normalizeMimeType contentType buffer)

/-- The paths exempt from api-key checking. -/
def publicPaths : List String := ["/docs", "/openapi.json"]

/-- Result of the api-key middleware: reject with an error, or call the
downstream handler. -/
inductive AuthDecision where
  | reject (e : AiRunErr)
  | proceed

/-- JavaScript truthiness of a possibly-absent string (`!value` in the
middleware): absent and empty are both falsy. -/
def strTruthy : Option String → Bool
  | some s => decide (s ≠ "")
  | none => false

/-- middleware/api-key.ts `apiKeyAuth`: documentation paths pass through;
a falsy configured key or falsy provided header is `UNAUTHORIZED` (401);
a mismatch is `FORBIDDEN` (403); otherwise the handler runs. -/
def apiKeyAuth (path : String) (configuredKey providedKey : Option String) : AuthDecision :=
  if path ∈ publicPaths then .proceed
  else if strTruthy configuredKey = false then .reject ⟨.UNAUTHORIZED, 401, none, none⟩
  else if strTruthy providedKey = false then .reject ⟨.UNAUTHORIZED, 401, none, none⟩
  else if providedKey ≠ configuredKey then .reject ⟨.FORBIDDEN, 403, none, none⟩
  else .proceed

/-- JSON whitespace. -/
def jsonWs (c : Char) : Bool :=
  c = ' ' ∨ c = '\t' ∨ c = '\n' ∨ c = '\r'

/-- Drop leading JSON whitespace. -/
def skipWs (s : List Char) : List Char :=
  s.dropWhile jsonWs

/-- Value of a hexadecimal digit. -/
def hexVal (c : Char) : Option ℕ :=
  if '0' ≤ c ∧ c ≤ '9' then some (c.toNat - 48)
  else if 'a' ≤ c ∧ c ≤ 'f' then some (c.toNat - 87)
  else if 'A' ≤ c ∧ c ≤ 'F' then some (c.toNat - 70)
  else none

/-- Value of a decimal digit. -/
def digitVal (c : Char) : Option ℕ :=
  if '0' ≤ c ∧ c ≤ '9' then some (c.toNat - 48) else none

/-- The single-character JSON string escapes. -/
def escapeChar (c : Char) : Option Char :=
  if c = '"' then some '"'
  else if c = '\\' then some '\\'
  else if c = '/' then some '/'
  else if c = 'b' then some (Char.ofNat 8)
  else if c = 'f' then some (Char.ofNat 12)
  else if c = 'n' then some '\n'
  else if c = 'r' then some '\r'
  else if c = 't' then some '\t'
  else none

/-- Body of a JSON string literal, after the opening quote (fuelled;
surrogate pairing of `\u` escapes is not modelled). -/
def parseStringBody : ℕ → List Char → List Char → Option (String × List Char)
  | 0, _, _ => none
  | _ + 1, [], _ => none
  | fuel + 1, c :: rest, acc =>
    if c = '"' then some (String.mk acc.reverse, rest)
    else if c = '\\' then
      match rest with
      | [] => none
      | e :: rest2 =>
        if e = 'u' then
          match rest2 with
          | a :: b :: c2 :: d :: rest3 =>
            match hexVal a, hexVal b, hexVal c2, hexVal d with
            | some ha, some hb, some hc, some hd =>
                parseStringBody fuel rest3 (Char.ofNat (((ha * 16 + hb) * 16 + hc) * 16 + hd) :: acc)
            | _, _, _, _ => none
          | _ => none
        else
          match escapeChar e with
          | some ec => parseStringBody fuel rest2 (ec :: acc)
          | none => none
    else if c.toNat < 0x20 then none
    else parseStringBody fuel rest (c :: acc)

/-- Longest prefix of decimal digits, as values. -/
def takeDigits (s : List Char) : List ℕ × List Char :=
  match s with
  | [] => ([], [])
  | c :: rest =>
    match digitVal c with
    | some d =>
      let (ds, r) := takeDigits rest
      (d :: ds, r)
    | none => ([], s)

/-- Natural number denoted by a digit list. -/
def digitsToNat (ds : List ℕ) : ℕ :=
  ds.foldl (fun a d => a * 10 + d) 0

/-- The optional fraction part of a JSON number literal: at a position
after the integer part, a dot requires at least one digit. -/
def parseFrac (s : List Char) : Option (ℚ × List Char) :=
  match s with
  | '.' :: r =>
    let (fds, r2) := takeDigits r
    if fds.isEmpty then none
    else some ((digitsToNat fds : ℚ) / ((10 : ℚ) ^ fds.length), r2)
  | _ => some ((0 : ℚ), s)

/-- The optional exponent part of a JSON number literal, applied to the
value parsed so far. -/
def parseExp (base : ℚ) (s : List Char) : ℚ × List Char :=
  match s with
  | e :: r =>
    if e = 'e' ∨ e = 'E' then
      let (esign, r1) : Bool × List Char := match r with
        | '-' :: r2 => (true, r2)
        | '+' :: r2 => (false, r2)
        | _ => (false, r)
      let (eds, r2) := takeDigits r1
      if eds.isEmpty then (base, s)
      else if esign then (base / ((10 : ℚ) ^ digitsToNat eds), r2)
      else (base * ((10 : ℚ) ^ digitsToNat eds), r2)
    else (base, s)
  | _ => (base, s)

/-- A JSON number literal: optional minus, integer part without leading
zeros, optional fraction, optional exponent: the denoted exact rational.
-/
def parseNumber (s : List Char) : Option (ℚ × List Char) :=
  let (neg, s1) := match s with
    | '-' :: r => (true, r)
    | _ => (false, s)
  let (ids, s2) := takeDigits s1
  if ids.isEmpty then none
  else if 2 ≤ ids.length ∧ ids.headD 0 = 0 then none
  else
    match parseFrac s2 with
    | none => none
    | some (frac, s3) =>
      let (value, s4) := parseExp ((digitsToNat ids : ℚ) + frac) s3
      some (if neg then -value else value, s4)

mutual

/-- A JSON value (fuelled recursive-descent model of `JSON.parse`). -/
def parseValue : ℕ → List Char → Option (JsonVal × List Char)
  | 0, _ => none
  | fuel + 1, s =>
    match skipWs s with
    | [] => none
    | c :: rest =>
      if c = '\x7b' then
        match skipWs rest with
        | d :: rest2 => if d = '\x7d' then some (.obj [], rest2) else parseMembers fuel rest []
        | [] => none
      else if c = '[' then
        match skipWs rest with
        | d :: rest2 => if d = ']' then some (.arr [], rest2) else parseElements fuel rest []
        | [] => none
      else if c = '"' then
        match parseStringBody rest.length rest [] with
        | some (str, r) => some (.str str, r)
        | none => none
      else
        match c :: rest with
        | 't' :: 'r' :: 'u' :: 'e' :: r => some (.bool true, r)
        | 'f' :: 'a' :: 'l' :: 's' :: 'e' :: r => some (.bool false, r)
        | 'n' :: 'u' :: 'l' :: 'l' :: r => some (.null, r)
        | s2 =>
          match parseNumber s2 with
          | some (q, r) => some (.num (.fin q), r)
          | none => none

/-- The members of a JSON object, at a position expecting a key. -/
def parseMembers : ℕ → List Char → List (String × JsonVal) → Option (JsonVal × List Char)
  | 0, _, _ => none
  | fuel + 1, s, acc =>
    match skipWs s with
    | '"' :: rest =>
      match parseStringBody rest.length rest [] with
      | some (key, r1) =>
        match skipWs r1 with
        | ':' :: r2 =>
          match parseValue fuel r2 with
          | some (v, r3) =>
            match skipWs r3 with
            | ',' :: r4 => parseMembers fuel r4 (acc ++ [(key, v)])
            | '\x7d' :: r4 => some (.obj (acc ++ [(key, v)]), r4)
            | _ => none
          | none => none
        | _ => none
      | none => none
    | _ => none

/-- The elements of a JSON array, at a position expecting a value. -/
def parseElements : ℕ → List Char → List JsonVal → Option (JsonVal × List Char)
  | 0, _, _ => none
  | fuel + 1, s, acc =>
    match parseValue fuel s with
    | some (v, r) =>
      match skipWs r with
      | ',' :: r2 => parseElements fuel r2 (acc ++ [v])
      | ']' :: r2 => some (.arr (acc ++ [v]), r2)
      | _ => none
    | none => none

end

/-- Model of `JSON.parse` on a character list: one value, possibly
surrounded by whitespace, consuming the whole input. -/
def jsonParseChars (cs : List Char) : Option JsonVal :=
  match parseValue (cs.length + 1) cs with
  | some (v, rest) => if (skipWs rest).isEmpty then some v else none
  | none => none

/-- Model of `JSON.parse` on a string. -/
def jsonParse (text : String) : Option JsonVal :=
  jsonParseChars text.toList

/-- Last index of a character in a list (`String.lastIndexOf`). -/
def lastIndexOfChar (cs : List Char) (c : Char) : Option ℕ :=
  match cs.reverse.findIdx? (fun x => x = c) with
  | some i => some (cs.length - 1 - i)
  | none => none

/-- Llama route `parseJsonFromText`: trim, try `JSON.parse` on the whole
text, and on failure parse the substring from the first opening to the
last closing brace; `none` when that also fails or no such substring
exists. -/
def parseJsonFromText (text : String) : Option JsonVal :=
  let trimmed := text.trim
  match jsonParse trimmed with
  | some v => some v
  | none =>
    let cs := trimmed.toList
    match cs.findIdx? (fun c => c = '\x7b'), lastIndexOfChar cs '\x7d' with
    | some startIdx, some endIdx =>
        if startIdx < endIdx then jsonParseChars ((cs.drop startIdx).take (endIdx + 1 - startIdx))
        else none
    | _, _ => none

/-- Llama route `normalizeIsPerson`: an object with a boolean `isPerson`
is kept (as `{isPerson}`); a string is run through `parseJsonFromText`;
anything else is `null`. -/
def normalizeIsPerson (value : Option JsonVal) : Option JsonVal :=
  match value with
  | some v =>
      match v with
      | .str s => parseJsonFromText s
      | _ =>
        if isObjectLike v then
          match getField v "isPerson" with
          | some (.bool b) => some (.obj [("isPerson", .bool b)])
          | _ => none
        else none
  | none => none

/-- Llama route `extractIsPersonResult`: normalize `result.response`; if
that is falsy and `result.result.response` exists, normalize that; else
re-parse a string `result.response`; else `null`. -/
def extractIsPersonResult (result : JsonVal) : Option JsonVal :=
  if ¬ isObjectLike result = true then none
  else
    let responseField := getField result "response"
    let direct := normalizeIsPerson responseField
    if (match direct with
        | some d => jsTruthy d
        | none => false) then direct
    else
      match getField result "result" with
      | some res =>
          if isObjectLike res = true ∧ (getField res "response").isSome then
            normalizeIsPerson (getField res "response")
          else
            match responseField with
            | some (.str s) => parseJsonFromText s
            | _ => none
      | none =>
          match responseField with
          | some (.str s) => parseJsonFromText s
          | _ => none

/-- The extraction and validation step of Llama route
`detectPersonWithLlama` (after `runAiModel` has returned `result`):
a truthy extracted value with a boolean `isPerson` yields that boolean;
anything else throws `AI_RUN_RESPONSE_ERROR` (502) carrying the raw
reply. -/
def detectPersonOutcome (result : JsonVal) : Except AiRunErr Bool :=
  match extractIsPersonResult result with
  | some parsed =>
      if jsTruthy parsed then
        match getField parsed "isPerson" with
        | some (.bool b) => .ok b
        | _ => .error ⟨.AI_RUN_RESPONSE_ERROR, 502, none, some result⟩
      else .error ⟨.AI_RUN_RESPONSE_ERROR, 502, none, some result⟩
  | none => .error ⟨.AI_RUN_RESPONSE_ERROR, 502, none, some result⟩

/-- The vision-language reply text of the claims. -/
def exampleReplyText : String := "Sure thing! \x7b\"isPerson\": true\x7d — done."

/-- The claim's acceptance predicate for one detection record, written
from the claim's words: label `person`, a numeric score `>= threshold`
(JavaScript `>=`, hence false on NaN), and either no extractable area
ratio or an extracted ratio `>= minAreaRatio`. -/
def personDetectionClaim (threshold minRatio : JsNum) (item : JsonVal) : Prop :=
  getField item "label" = some (.str "person") ∧
  ∃ s, getField item "score" = some (.num s) ∧ JsNum.le threshold s = true ∧
    (extractAreaRatio item = none ∨ ∃ r, extractAreaRatio item = some r ∧ JsNum.le minRatio r = true)

/-- The acceptance predicate the code actually implements: as
`personDetectionClaim`, except that the score test is "`score < threshold`
is false" (so a NaN score is not rejected). -/
def personDetectionSpec (threshold minRatio : JsNum) (item : JsonVal) : Prop :=
  getField item "label" = some (.str "person") ∧
  ∃ s, getField item "score" = some (.num s) ∧ JsNum.lt s threshold = false ∧
    (extractAreaRatio item = none ∨ ∃ r, extractAreaRatio item = some r ∧ JsNum.le minRatio r = true)

/-- The single detection with label person and score NaN. -/
def nanScoreDetection : JsonVal := .obj [("label", .str "person"), ("score", .num .nan)]

/-- The pixel-coordinate corner-pair detection used as a concrete
out-of-range input. -/
def pixelBoxDetection : JsonVal :=
  .obj [("label", .str "person"), ("score", .num (.fin (9/10))),
        ("box", .obj [("xmin", .num (.fin 50)), ("ymin", .num (.fin 50)),
                      ("xmax", .num (.fin 450)), ("ymax", .num (.fin 350))])]

/-- The pixel-coordinate width/height-fields detection used as a
concrete out-of-range input. -/
def whBoxDetection : JsonVal :=
  .obj [("label", .str "person"), ("score", .num (.fin (9/10))),
        ("box", .obj [("w", .num (.fin 400)), ("h", .num (.fin 300))])]

/-- The claim's "is-error-response" condition, written from its words:
the payload is an object with `success === false` or with a non-empty
`errors` array. -/
def specErrorPayload (payload : JsonVal) : Prop :=
  getField payload "success" = some (.bool false) ∨
  ∃ es, getField payload "errors" = some (.arr es) ∧ es ≠ []

/-- The payload `(success := false)` used as C3's concrete error input. -/
def errorPayloadExample : JsonVal := .obj [("success", .bool false)]

/-- One `AiRunError` construction site with code `INVALID_INPUT`:
a source description, whether it is the upstream-fetch-not-ok branch of
`fetchImageBuffer`, and the error value constructed there. -/
structure InvalidInputSite where
  site : String
  isUpstreamFetchFailure : Bool
  err : AiRunErr

/-- Every construction of an `AiRunError` with code `INVALID_INPUT` in
the repository, in source order: the DETR vision route, the Llama vision
route (same nine sites), the generic AI run route, and the OpenAPI
validation hook. -/
def invalidInputSites : List InvalidInputSite :=
  [⟨"vision.ts handler: multipart file missing", false, ⟨.INVALID_INPUT, 400, none, none⟩⟩,
   ⟨"vision.ts handler: uploaded file too large", false, ⟨.INVALID_INPUT, 400, none, none⟩⟩,
   ⟨"vision.ts handler: unsupported content-type", false, ⟨.INVALID_INPUT, 400, none, none⟩⟩,
   ⟨"vision.ts handler: body not valid JSON", false, ⟨.INVALID_INPUT, 400, none, none⟩⟩,
   ⟨"vision.ts handler: schema validation failed", false, ⟨.INVALID_INPUT, 400, none, none⟩⟩,
   ⟨"vision.ts fetchImageBuffer: upstream response not ok", true, ⟨.INVALID_INPUT, 502, none, none⟩⟩,
   ⟨"vision.ts fetchImageBuffer: content-length exceeds cap", false, ⟨.INVALID_INPUT, 400, none, none⟩⟩,
   ⟨"vision.ts fetchImageBuffer: body exceeds cap", false, ⟨.INVALID_INPUT, 400, none, none⟩⟩,
   ⟨"vision.ts maybeTranscodeAvif: AVIF decode failed", false, ⟨.INVALID_INPUT, 400, none, none⟩⟩,
   ⟨"llama route handler: multipart file missing", false, ⟨.INVALID_INPUT, 400, none, none⟩⟩,
   ⟨"llama route handler: uploaded file too large", false, ⟨.INVALID_INPUT, 400, none, none⟩⟩,
   ⟨"llama route handler: unsupported content-type", false, ⟨.INVALID_INPUT, 400, none, none⟩⟩,
   ⟨"llama route handler: body not valid JSON", false, ⟨.INVALID_INPUT, 400, none, none⟩⟩,
   ⟨"llama route handler: schema validation failed", false, ⟨.INVALID_INPUT, 400, none, none⟩⟩,
   ⟨"llama route fetchImageBuffer: upstream response not ok", true, ⟨.INVALID_INPUT, 502, none, none⟩⟩,
   ⟨"llama route fetchImageBuffer: content-length exceeds cap", false, ⟨.INVALID_INPUT, 400, none, none⟩⟩,
   ⟨"llama route fetchImageBuffer: body exceeds cap", false, ⟨.INVALID_INPUT, 400, none, none⟩⟩,
   ⟨"llama route normalizeImageBytes: AVIF decode failed", false, ⟨.INVALID_INPUT, 400, none, none⟩⟩,
   ⟨"ai.ts handler: body not valid JSON", false, ⟨.INVALID_INPUT, 400, none, none⟩⟩,
   ⟨"ai.ts handler: body must be an object", false, ⟨.INVALID_INPUT, 400, none, none⟩⟩,
   ⟨"ai.ts handler: model is required", false, ⟨.INVALID_INPUT, 400, none, none⟩⟩,
   ⟨"ai.ts handler: options must be an object", false, ⟨.INVALID_INPUT, 400, none, none⟩⟩,
   ⟨"index.ts defaultHook: request validation failed", false, ⟨.INVALID_INPUT, 400, none, none⟩⟩]

/-- The claim's AVIF recognition condition, written from its words: the
declared content-type contains `image/avif`, or the first 32 bytes carry
`ftyp` at offset 4 and brand `avif` or `avis` at a scanned offset. -/
def specAvifRecognized (buffer : List ℕ) (contentType : Option String) : Prop :=
  (∃ ct, contentType = some ct ∧
    ct.toLower.toList.tails.any (fun t => ("image/avif".toList).isPrefixOf t) = true) ∨
  (12 ≤ (buffer.take 32).length ∧
   (buffer.take 32).getD 4 0 = 0x66 ∧ (buffer.take 32).getD 5 0 = 0x74 ∧
   (buffer.take 32).getD 6 0 = 0x79 ∧ (buffer.take 32).getD 7 0 = 0x70 ∧
   ∃ o ∈ avifBrandOffsets, o + 4 ≤ (buffer.take 32).length ∧
     (buffer.take 32).getD o 0 = 0x61 ∧ (buffer.take 32).getD (o + 1) 0 = 0x76 ∧
     (buffer.take 32).getD (o + 2) 0 = 0x69 ∧
     ((buffer.take 32).getD (o + 3) 0 = 0x66 ∨ (buffer.take 32).getD (o + 3) 0 = 0x73))

/-- A minimal AVIF header: box size, `ftyp`, brand `avif`. -/
def avifHeaderExample : List ℕ :=
  [0, 0, 0, 32, 0x66, 0x74, 0x79, 0x70, 0x61, 0x76, 0x69, 0x66]

/-- The claim's "a boolean isPerson was obtained" condition: the
extraction produced a value carrying a boolean `isPerson`. -/
def specObtainedBoolean (result : JsonVal) (b : Bool) : Prop :=
  ∃ p, extractIsPersonResult result = some p ∧ getField p "isPerson" = some (.bool b)

theorem getField_some_obj {item : JsonVal} {key : String} {v : JsonVal}
    (h : getField item key = some v) : ∃ fields, item = .obj fields := by
  cases item <;> simp [getField] at h ⊢

theorem personMatch_eq_true_iff (threshold minRatio : JsNum) (item : JsonVal) :
    personMatch threshold minRatio item = true ↔ personDetectionSpec threshold minRatio item := by
  cases hobj : isObjectLike item with
  | false =>
    simp only [personMatch, hobj]
    simp only [Bool.false_eq_true, not_false_eq_true, if_true]
    constructor
    · intro h; exact absurd h (by simp)
    · rintro ⟨hlabel, -⟩
      obtain ⟨fields, rfl⟩ := getField_some_obj hlabel
      simp [isObjectLike] at hobj
  | true =>
    rcases hl : getField item "label" with - | lv
    · simp [personMatch, hobj, hl, personDetectionSpec]
    · cases lv with
      | str l =>
        rcases hs : getField item "score" with - | sv
        · simp [personMatch, hobj, hl, hs, personDetectionSpec]
        · cases sv with
          | num s =>
            by_cases hlp : l = "person"
            · subst hlp
              cases hlt : JsNum.lt s threshold with
              | true => simp [personMatch, hobj, hl, hs, hlt, personDetectionSpec]
              | false =>
                rcases hr : extractAreaRatio item with - | r <;>
                  simp [personMatch, hobj, hl, hs, hlt, hr, personDetectionSpec]
            · simp [personMatch, hobj, hl, hs, hlp, personDetectionSpec]
          | null => simp [personMatch, hobj, hl, hs, personDetectionSpec]
          | bool b => simp [personMatch, hobj, hl, hs, personDetectionSpec]
          | str s2 => simp [personMatch, hobj, hl, hs, personDetectionSpec]
          | arr xs => simp [personMatch, hobj, hl, hs, personDetectionSpec]
          | obj fs => simp [personMatch, hobj, hl, hs, personDetectionSpec]
      | null => simp [personMatch, hobj, hl, personDetectionSpec]
      | bool b => simp [personMatch, hobj, hl, personDetectionSpec]
      | num n => simp [personMatch, hobj, hl, personDetectionSpec]
      | arr xs => simp [personMatch, hobj, hl, personDetectionSpec]
      | obj fs => simp [personMatch, hobj, hl, personDetectionSpec]

theorem hasPerson_eq_true_iff (result : JsonVal) (threshold minRatio : JsNum) :
    hasPerson result threshold minRatio = true ↔
      ∃ items, result = .arr items ∧ ∃ item ∈ items, personDetectionSpec threshold minRatio item := by
  cases result <;> simp [hasPerson, List.any_eq_true, personMatch_eq_true_iff]

/-- C1 counterexample: on the one-record result whose score is NaN (a
value of JavaScript type number), with threshold 0.7 and minAreaRatio
0.2, `hasPerson` returns true although no record satisfies the claim's
predicate "numeric score >= threshold" — `NaN >= 0.7` is false in
JavaScript while the code's test `NaN < 0.7` is also false, so the code
accepts.  The claim's "if and only if" therefore fails on this input. -/
theorem hasPerson_claim_counterexample :
    hasPerson (.arr [nanScoreDetection]) (.fin (7/10)) (.fin (1/5)) = true ∧
    ¬ ∃ item ∈ [nanScoreDetection], personDetectionClaim (.fin (7/10)) (.fin (1/5)) item := by
  constructor
  · with_unfolding_all rfl
  · rintro ⟨item, hmem, hlabel, s, hs, hle, -⟩
    simp only [List.mem_singleton] at hmem
    subst hmem
    simp [nanScoreDetection, getField, lookupStr] at hs
    subst hs
    simp [JsNum.le] at hle

/-- C1 (amended): for every model result and all thresholds, `hasPerson`
returns true iff the result is an array with some record whose label is
`person`, whose score is a number for which `score < threshold` is false
under JavaScript comparison (so a NaN score passes), and whose box either
yields no extractable area ratio or yields a ratio `>=` minAreaRatio.
In particular the single detection `(label person, score 0.9, box
(0.1,0.1)-(0.5,0.5))` with threshold 0.7 gives false at minAreaRatio 0.2
(ratio 0.16) and true at minAreaRatio 0.1. -/
theorem hasPerson_bbox_strategy :
    (∀ (result : JsonVal) (threshold minRatio : JsNum),
      hasPerson result threshold minRatio = true ↔
        ∃ items, result = .arr items ∧ ∃ item ∈ items, personDetectionSpec threshold minRatio item)
    ∧ hasPerson (.arr [exampleDetection]) (.fin (7/10)) (.fin (1/5)) = false
    ∧ hasPerson (.arr [exampleDetection]) (.fin (7/10)) (.fin (1/10)) = true := by
  refine ⟨hasPerson_eq_true_iff, ?_, ?_⟩
  · with_unfolding_all rfl
  · with_unfolding_all rfl

theorem normalizedArea_out_of_range (w h : JsNum)
    (hout : w.isFinite = false ∨ h.isFinite = false ∨
      (∃ wq, w = .fin wq ∧ wq ≤ 0) ∨ (∃ hq, h = .fin hq ∧ hq ≤ 0) ∨
      (∃ wq, w = .fin wq ∧ 1 < wq) ∨ (∃ hq, h = .fin hq ∧ 1 < hq)) :
    normalizedArea w h = none := by
  rcases hout with hw | hh | ⟨wq, rfl, hle⟩ | ⟨hq, rfl, hle⟩ | ⟨wq, rfl, hlt⟩ | ⟨hq, rfl, hlt⟩
  · cases w <;> simp_all [normalizedArea, JsNum.isFinite]
  · cases h <;> cases w <;> simp_all [normalizedArea, JsNum.isFinite]
  · cases h <;> simp [normalizedArea, JsNum.isFinite, hle]
  · cases w <;> simp [normalizedArea, JsNum.isFinite, hle]
  · cases h <;> simp [normalizedArea, JsNum.isFinite, hlt]
  · cases w <;> simp [normalizedArea, JsNum.isFinite, hlt]

theorem cornerCoords_some_obj {box : JsonVal} {c : ℚ × ℚ × ℚ × ℚ}
    (h : cornerCoords box = some c) : isObjectLike box = true := by
  cases box <;> simp [cornerCoords, getField, jsCoalesce, numberOrUndefined, isObjectLike] at h ⊢

theorem jsle_imp_lt_false {a b : JsNum} (h : JsNum.le a b = true) : JsNum.lt b a = false := by
  revert h
  cases a <;> cases b <;> simp [JsNum.le, JsNum.lt]

theorem whCoords_some_obj {box : JsonVal} {w : ℚ}
    (hw : numberOrUndefined (jsCoalesce (getField box "w") (getField box "width")) = some w) :
    isObjectLike box = true := by
  cases box <;> simp [getField, jsCoalesce, numberOrUndefined, isObjectLike] at hw ⊢

theorem ratio_none_accepted {item : JsonVal} {threshold minRatio : JsNum}
    (hlabel : getField item "label" = some (.str "person"))
    (hscore : ∃ s, getField item "score" = some (.num s) ∧ JsNum.le threshold s = true)
    (harea : extractAreaRatio item = none) :
    hasPerson (.arr [item]) threshold minRatio = true := by
  obtain ⟨s, hs, hle⟩ := hscore
  obtain ⟨fields, rfl⟩ := getField_some_obj hlabel
  simp only [hasPerson, List.any_cons, List.any_nil, Bool.or_false]
  simp [personMatch, isObjectLike, hlabel, hs, jsle_imp_lt_false hle, harea]

/-- C10: a dimension that is non-finite, non-positive or greater than 1
makes `normalizedArea` return `null`; and a person detection whose score
passes the threshold and whose box does yield dimensions — through the
corner-coordinate conventions, or through the `w`/`width` and
`h`/`height` fields — but with an out-of-range computed width or height
(as with pixel-coordinate boxes), has no extractable area ratio and is
accepted regardless of `minAreaRatio` — never rejected and never an
error. -/
theorem outOfRange_box_bypasses_area_filter :
    (∀ w h : JsNum,
      (w.isFinite = false ∨ h.isFinite = false ∨
       (∃ wq, w = .fin wq ∧ wq ≤ 0) ∨ (∃ hq, h = .fin hq ∧ hq ≤ 0) ∨
       (∃ wq, w = .fin wq ∧ 1 < wq) ∨ (∃ hq, h = .fin hq ∧ 1 < hq)) →
      normalizedArea w h = none)
    ∧ (∀ (item box : JsonVal) (threshold minRatio : JsNum) (x1 y1 x2 y2 : ℚ),
        getField item "label" = some (.str "person") →
        (∃ s, getField item "score" = some (.num s) ∧ JsNum.le threshold s = true) →
        getField item "box" = some box →
        cornerCoords box = some (x1, y1, x2, y2) →
        (x2 - x1 ≤ 0 ∨ 1 < x2 - x1 ∨ y2 - y1 ≤ 0 ∨ 1 < y2 - y1) →
        extractAreaRatio item = none ∧ hasPerson (.arr [item]) threshold minRatio = true)
    ∧ (∀ (item box : JsonVal) (threshold minRatio : JsNum) (w h : ℚ),
        getField item "label" = some (.str "person") →
        (∃ s, getField item "score" = some (.num s) ∧ JsNum.le threshold s = true) →
        getField item "box" = some box →
        cornerCoords box = none →
        numberOrUndefined (jsCoalesce (getField box "w") (getField box "width")) = some w →
        numberOrUndefined (jsCoalesce (getField box "h") (getField box "height")) = some h →
        (w ≤ 0 ∨ 1 < w ∨ h ≤ 0 ∨ 1 < h) →
        extractAreaRatio item = none ∧ hasPerson (.arr [item]) threshold minRatio = true) := by
  refine ⟨normalizedArea_out_of_range, ?_, ?_⟩
  · intro item box threshold minRatio x1 y1 x2 y2 hlabel hscore hbox hcorner hrange
    have hboxobj : isObjectLike box = true := cornerCoords_some_obj hcorner
    have harea : extractAreaRatio item = none := by
      have hna : normalizedArea (.fin (x2 - x1)) (.fin (y2 - y1)) = none := by
        apply normalizedArea_out_of_range
        rcases hrange with h | h | h | h
        · exact Or.inr (Or.inr (Or.inl ⟨x2 - x1, rfl, h⟩))
        · exact Or.inr (Or.inr (Or.inr (Or.inr (Or.inl ⟨x2 - x1, rfl, h⟩))))
        · exact Or.inr (Or.inr (Or.inr (Or.inl ⟨y2 - y1, rfl, h⟩)))
        · exact Or.inr (Or.inr (Or.inr (Or.inr (Or.inr ⟨y2 - y1, rfl, h⟩))))
      simp [extractAreaRatio, hbox, hboxobj, hcorner, hna]
    exact ⟨harea, ratio_none_accepted hlabel hscore harea⟩
  · intro item box threshold minRatio w h hlabel hscore hbox hcornone hw hh hrange
    have hboxobj : isObjectLike box = true := whCoords_some_obj hw
    have harea : extractAreaRatio item = none := by
      have hna : normalizedArea (.fin w) (.fin h) = none := by
        apply normalizedArea_out_of_range
        rcases hrange with hr | hr | hr | hr
        · exact Or.inr (Or.inr (Or.inl ⟨w, rfl, hr⟩))
        · exact Or.inr (Or.inr (Or.inr (Or.inr (Or.inl ⟨w, rfl, hr⟩))))
        · exact Or.inr (Or.inr (Or.inr (Or.inl ⟨h, rfl, hr⟩)))
        · exact Or.inr (Or.inr (Or.inr (Or.inr (Or.inr ⟨h, rfl, hr⟩))))
      simp [extractAreaRatio, hbox, hboxobj, hcornone, hw, hh, hna]
    exact ⟨harea, ratio_none_accepted hlabel hscore harea⟩

/-- C10 witness: the corner-pair pixel box (50,50)-(450,350) and the
width/height-fields pixel box `(w := 400, h := 300)` both yield no area
ratio and both detections are accepted at minAreaRatio 0.2. -/
theorem outOfRange_box_bypasses_area_filter_witness :
    (extractAreaRatio pixelBoxDetection = none ∧
      hasPerson (.arr [pixelBoxDetection]) (.fin (7/10)) (.fin (1/5)) = true) ∧
    (extractAreaRatio whBoxDetection = none ∧
      hasPerson (.arr [whBoxDetection]) (.fin (7/10)) (.fin (1/5)) = true) := by
  constructor
  · have hbox : getField pixelBoxDetection "box"
        = some (.obj [("xmin", .num (.fin 50)), ("ymin", .num (.fin 50)),
                      ("xmax", .num (.fin 450)), ("ymax", .num (.fin 350))]) := by
      with_unfolding_all rfl
    refine outOfRange_box_bypasses_area_filter.2.1 pixelBoxDetection _ _ _ 50 50 450 350
      (by with_unfolding_all rfl)
      ⟨.fin (9/10), by with_unfolding_all rfl, by with_unfolding_all rfl⟩
      hbox (by with_unfolding_all rfl) ?_
    right; left; norm_num
  · have hbox : getField whBoxDetection "box"
        = some (.obj [("w", .num (.fin 400)), ("h", .num (.fin 300))]) := by
      with_unfolding_all rfl
    refine outOfRange_box_bypasses_area_filter.2.2 whBoxDetection _ _ _ 400 300
      (by with_unfolding_all rfl)
      ⟨.fin (9/10), by with_unfolding_all rfl, by with_unfolding_all rfl⟩
      hbox (by with_unfolding_all rfl) (by with_unfolding_all rfl)
      (by with_unfolding_all rfl) ?_
    right; left; norm_num

/-- C4: `withTimeout` resolves with the operation's own outcome when it
settles before the deadline, fails with `TimeoutError(timeoutMs)` when
the deadline elapses first, is an identity creating no timer when the
deadline is not a positive finite number, and otherwise arms exactly one
timer and clears it on every exit path. -/
theorem withTimeout_contract :
    (∀ (p : AsyncOp) (v : JsNum), v.isPosFinite = false → withTimeout p v = (p, ⟨0, 0⟩))
    ∧ (∀ (p : AsyncOp) (q : ℚ), 0 < q → (withTimeout p (.fin q)).2 = ⟨1, 1⟩)
    ∧ (∀ (p : AsyncOp) (q t : ℚ), 0 < q → p.settlesAt = some t → t < q →
        (withTimeout p (.fin q)).1 = ⟨some t, p.outcome⟩)
    ∧ (∀ (p : AsyncOp) (q : ℚ), 0 < q →
        (p.settlesAt = none ∨ ∃ t, p.settlesAt = some t ∧ q < t) →
        (withTimeout p (.fin q)).1 = ⟨some q, .error (.timeout (.fin q))⟩) := by
  refine ⟨?_, ?_, ?_, ?_⟩
  · intro p v hv
    cases v with
    | fin q =>
      simp only [JsNum.isPosFinite, decide_eq_false_iff_not, not_lt] at hv
      simp [withTimeout, hv]
    | nan => rfl
    | inf => rfl
    | ninf => rfl
  · intro p q hq
    simp only [withTimeout, if_neg (not_le.mpr hq)]
    cases hp : p.settlesAt with
    | none => rfl
    | some t =>
      dsimp only
      split <;> rfl
  · intro p q t hq hset hlt
    simp [withTimeout, if_neg (not_le.mpr hq), hset, le_of_lt hlt]
  · intro p q hq hs
    rcases hs with hnone | ⟨t, hset, hgt⟩
    · simp [withTimeout, if_neg (not_le.mpr hq), hnone]
    · simp [withTimeout, if_neg (not_le.mpr hq), hset, not_le.mpr hgt]

/-- C4 witness: a NaN deadline is a no-op with no timer; a 10 ms deadline
arms and clears one timer; an operation settling at 5 ms wins against a
10 ms deadline; a never-settling operation loses to it. -/
theorem withTimeout_contract_witness :
    withTimeout ⟨some 5, .ok .null⟩ .nan = (⟨some 5, .ok .null⟩, ⟨0, 0⟩) ∧
    (withTimeout ⟨some 5, .ok .null⟩ (.fin 10)).2 = ⟨1, 1⟩ ∧
    (withTimeout ⟨some 5, .ok .null⟩ (.fin 10)).1 = ⟨some 5, .ok .null⟩ ∧
    (withTimeout ⟨none, .error (.other "never settles")⟩ (.fin 10)).1
      = ⟨some 10, .error (.timeout (.fin 10))⟩ := by
  refine ⟨withTimeout_contract.1 _ _ rfl, withTimeout_contract.2.1 _ _ (by norm_num),
    withTimeout_contract.2.2.1 _ _ 5 (by norm_num) rfl (by norm_num),
    withTimeout_contract.2.2.2 _ _ (by norm_num) (Or.inl rfl)⟩

theorem effectiveTimeoutMs_pos (timeoutMs : Option JsNum) : 0 < effectiveTimeoutMs timeoutMs := by
  rcases timeoutMs with - | v
  · norm_num [effectiveTimeoutMs, DEFAULT_AI_TIMEOUT_MS]
  · cases v with
    | fin q =>
      by_cases h : 0 < q
      · simp [effectiveTimeoutMs, h]
      · simp only [effectiveTimeoutMs, if_neg h, DEFAULT_AI_TIMEOUT_MS]; norm_num
    | nan => norm_num [effectiveTimeoutMs, DEFAULT_AI_TIMEOUT_MS]
    | inf => norm_num [effectiveTimeoutMs, DEFAULT_AI_TIMEOUT_MS]
    | ninf => norm_num [effectiveTimeoutMs, DEFAULT_AI_TIMEOUT_MS]

/-- C5: when the guarded `ai.run` call does not settle by the effective
deadline, `runAiModel` fails with `AI_RUN_TIMEOUT` (504) whose
`durationMs` equals the effective deadline; and the effective deadline is
60 000 ms whenever the caller supplies no `timeoutMs` or one that is not
a positive finite number. -/
theorem runAiModel_timeout_mapping :
    (∀ v : JsNum, v.isPosFinite = false → effectiveTimeoutMs (some v) = 60000)
    ∧ effectiveTimeoutMs none = 60000
    ∧ (∀ (run : AsyncOp) (timeoutMs : Option JsNum),
        (run.settlesAt = none ∨ ∃ t, run.settlesAt = some t ∧ effectiveTimeoutMs timeoutMs < t) →
        runAiModel run timeoutMs
          = some (.error ⟨.AI_RUN_TIMEOUT, 504, some (effectiveTimeoutMs timeoutMs), none⟩)) := by
  refine ⟨?_, rfl, ?_⟩
  · intro v hv
    cases v with
    | fin q =>
      simp only [JsNum.isPosFinite, decide_eq_false_iff_not] at hv
      simp [effectiveTimeoutMs, hv, DEFAULT_AI_TIMEOUT_MS]
    | nan => rfl
    | inf => rfl
    | ninf => rfl
  · intro run timeoutMs hs
    have hpos := effectiveTimeoutMs_pos timeoutMs
    rcases hs with hnone | ⟨t, hset, hgt⟩
    · simp [runAiModel, withTimeout, if_neg (not_le.mpr hpos), hnone]
    · simp [runAiModel, withTimeout, if_neg (not_le.mpr hpos), hset, if_neg (not_le.mpr hgt)]

/-- C5 witness: a zero `timeoutMs` falls back to the 60 000 ms default,
and a never-settling call times out with `AI_RUN_TIMEOUT` (504) and
`durationMs` 60 000. -/
theorem runAiModel_timeout_mapping_witness :
    effectiveTimeoutMs (some (.fin 0)) = 60000 ∧
    runAiModel ⟨none, .error (.other "pending")⟩ none
      = some (.error ⟨.AI_RUN_TIMEOUT, 504, some 60000, none⟩) := by
  refine ⟨runAiModel_timeout_mapping.1 _ rfl, ?_⟩
  exact runAiModel_timeout_mapping.2.2 ⟨none, .error (.other "pending")⟩ none (Or.inl rfl)

theorem isErrorResponse_eq_true_iff (payload : JsonVal) :
    isErrorResponse payload = true ↔ specErrorPayload payload := by
  cases hobj : isObjectLike payload with
  | false =>
    simp only [isErrorResponse, hobj, Bool.false_eq_true, not_false_eq_true, if_true]
    constructor
    · intro h; simp at h
    · rintro (hsucc | ⟨es, herr, -⟩)
      · obtain ⟨fields, rfl⟩ := getField_some_obj hsucc
        simp [isObjectLike] at hobj
      · obtain ⟨fields, rfl⟩ := getField_some_obj herr
        simp [isObjectLike] at hobj
  | true =>
    rcases hsucc : getField payload "success" with - | sv
    · rcases herr : getField payload "errors" with - | ev
      · simp [isErrorResponse, hobj, hsucc, herr, specErrorPayload]
      · cases ev <;>
          simp [isErrorResponse, hobj, hsucc, herr, specErrorPayload, List.length_pos,
            List.isEmpty_iff]
    · cases sv with
      | bool b =>
        cases b with
        | false => simp [isErrorResponse, hobj, hsucc, specErrorPayload]
        | true =>
          rcases herr : getField payload "errors" with - | ev
          · simp [isErrorResponse, hobj, hsucc, herr, specErrorPayload]
          · cases ev <;>
              simp [isErrorResponse, hobj, hsucc, herr, specErrorPayload, List.length_pos,
                List.isEmpty_iff]
      | null =>
        rcases herr : getField payload "errors" with - | ev
        · simp [isErrorResponse, hobj, hsucc, herr, specErrorPayload]
        · cases ev <;>
            simp [isErrorResponse, hobj, hsucc, herr, specErrorPayload, List.length_pos,
              List.isEmpty_iff]
      | num n =>
        rcases herr : getField payload "errors" with - | ev
        · simp [isErrorResponse, hobj, hsucc, herr, specErrorPayload]
        · cases ev <;>
            simp [isErrorResponse, hobj, hsucc, herr, specErrorPayload, List.length_pos,
              List.isEmpty_iff]
      | str s =>
        rcases herr : getField payload "errors" with - | ev
        · simp [isErrorResponse, hobj, hsucc, herr, specErrorPayload]
        · cases ev <;>
            simp [isErrorResponse, hobj, hsucc, herr, specErrorPayload, List.length_pos,
              List.isEmpty_iff]
      | arr xs =>
        rcases herr : getField payload "errors" with - | ev
        · simp [isErrorResponse, hobj, hsucc, herr, specErrorPayload]
        · cases ev <;>
            simp [isErrorResponse, hobj, hsucc, herr, specErrorPayload, List.length_pos,
              List.isEmpty_iff]
      | obj fs =>
        rcases herr : getField payload "errors" with - | ev
        · simp [isErrorResponse, hobj, hsucc, herr, specErrorPayload]
        · cases ev <;>
            simp [isErrorResponse, hobj, hsucc, herr, specErrorPayload, List.length_pos,
              List.isEmpty_iff]

/-- C3: for a call that settles by the deadline with payload `payload`,
`runAiModel` fails with `AI_RUN_RESPONSE_ERROR` (502) carrying the raw
payload iff the payload is an object with `success === false` or a
non-empty `errors` array; every other payload is returned unchanged. -/
theorem runAiModel_error_response (run : AsyncOp) (timeoutMs : Option JsNum)
    (payload : JsonVal) (s : ℚ)
    (hout : run.outcome = .ok payload) (hset : run.settlesAt = some s)
    (hle : s ≤ effectiveTimeoutMs timeoutMs) :
    (runAiModel run timeoutMs
        = some (.error ⟨.AI_RUN_RESPONSE_ERROR, 502, some s, some payload⟩)
      ↔ specErrorPayload payload)
    ∧ (¬ specErrorPayload payload → runAiModel run timeoutMs = some (.ok payload)) := by
  have hpos := effectiveTimeoutMs_pos timeoutMs
  have hguard : (withTimeout run (.fin (effectiveTimeoutMs timeoutMs))).1
      = ⟨some s, run.outcome⟩ := by
    simp [withTimeout, if_neg (not_le.mpr hpos), hset, hle]
  constructor
  · cases herr : isErrorResponse payload with
    | true =>
      have hspec := (isErrorResponse_eq_true_iff payload).mp herr
      simp [runAiModel, hguard, hout, herr, hspec]
    | false =>
      constructor
      · intro h
        simp [runAiModel, hguard, hout, herr] at h
      · intro hspec
        exact absurd ((isErrorResponse_eq_true_iff payload).mpr hspec) (by simp [herr])
  · intro hnspec
    have herr : isErrorResponse payload = false := by
      cases h : isErrorResponse payload
      · rfl
      · exact absurd ((isErrorResponse_eq_true_iff payload).mp h) hnspec
    simp [runAiModel, hguard, hout, herr]

/-- C3 witness: a `success: false` payload settling at 1 ms fails with
`AI_RUN_RESPONSE_ERROR` carrying it; an empty-object payload is returned
unchanged. -/
theorem runAiModel_error_response_witness :
    runAiModel ⟨some 1, .ok errorPayloadExample⟩ none
      = some (.error ⟨.AI_RUN_RESPONSE_ERROR, 502, some 1, some errorPayloadExample⟩) ∧
    runAiModel ⟨some 1, .ok (.obj [])⟩ none = some (.ok (.obj [])) := by
  have hle : (1 : ℚ) ≤ effectiveTimeoutMs none := by
    rw [show effectiveTimeoutMs none = 60000 from rfl]; norm_num
  constructor
  · exact (runAiModel_error_response _ none errorPayloadExample 1 rfl rfl hle).1.mpr
      (Or.inl (by with_unfolding_all rfl))
  · refine (runAiModel_error_response _ none (.obj []) 1 rfl rfl hle).2 ?_
    rintro (h | ⟨es, h, -⟩) <;> simp [getField, lookupStr] at h

/-- C6 counterexample: when the upstream image fetch returns a
non-success HTTP status, `fetchImageBuffer` throws an error whose code is
`INVALID_INPUT` but whose status — the status the handler's catch block
sends across the HTTP boundary — is 502, not 400. -/
theorem fetch_invalid_input_status_counterexample :
    fetchImageBuffer (.response ⟨false, 404, none, 0, none⟩)
      = .error ⟨.INVALID_INPUT, 502, none, none⟩ ∧ (502 : ℕ) ≠ 400 := by
  exact ⟨rfl, by decide⟩

/-- C6 (amended): every error constructed with code `INVALID_INPUT`
crosses the HTTP boundary with status 400, except the error raised when
the upstream image fetch returns a non-success HTTP status, which keeps
code `INVALID_INPUT` but carries status 502. -/
theorem invalid_input_status_amended :
    ∀ e ∈ invalidInputSites,
      e.err.code = .INVALID_INPUT ∧
      e.err.status = (if e.isUpstreamFetchFailure = true then 502 else 400) := by
  intro e he
  fin_cases he <;> exact ⟨rfl, rfl⟩

/-- C6 amended-claim witness: the registry's first entry and its
upstream-fetch entry, checked through the amended theorem. -/
theorem invalid_input_status_amended_witness :
    (⟨"vision.ts handler: multipart file missing", false,
      ⟨.INVALID_INPUT, 400, none, none⟩⟩ : InvalidInputSite).err.status = 400 := by
  have hmem : (⟨"vision.ts handler: multipart file missing", false,
      ⟨.INVALID_INPUT, 400, none, none⟩⟩ : InvalidInputSite) ∈ invalidInputSites :=
    List.mem_cons_self _ _
  exact (invalid_input_status_amended _ hmem).2.trans rfl

theorem isAvif_eq_true_iff (buffer : List ℕ) (ct : Option String) :
    isAvif buffer ct = true ↔ specAvifRecognized buffer ct := by
  simp only [isAvif]
  split_ifs with hc h12 hftyp
  · -- declared content-type matched
    simp only [true_iff]
    left
    rcases ct with - | s
    · simp at hc
    · exact ⟨s, rfl, hc⟩
  · -- fewer than 12 bytes
    simp only [Bool.false_eq_true, false_iff, specAvifRecognized]
    rintro (⟨s, rfl, hcp⟩ | ⟨h12x, -⟩)
    · exact hc hcp
    · exact absurd h12 (not_lt.mpr h12x)
  · -- ftyp found: the brand scan decides
    rw [List.any_eq_true]
    simp only [Bool.and_eq_true, beq_iff_eq] at hftyp
    obtain ⟨⟨⟨h4, h5⟩, h6⟩, h7⟩ := hftyp
    constructor
    · rintro ⟨o, ho, harm⟩
      rw [ite_eq_iff] at harm
      rcases harm with ⟨-, habs⟩ | ⟨hlen, hbrand⟩
      · exact absurd habs (by simp)
      · simp only [Bool.and_eq_true, Bool.or_eq_true, beq_iff_eq] at hbrand
        obtain ⟨⟨⟨b1, b2⟩, b3⟩, b4⟩ := hbrand
        exact Or.inr ⟨not_lt.mp h12, h4, h5, h6, h7, o, ho, not_lt.mp hlen, b1, b2, b3, b4⟩
    · rintro (⟨s, rfl, hcp⟩ | ⟨-, -, -, -, -, o, ho, ho4, b1, b2, b3, b4⟩)
      · exact absurd hcp hc
      · refine ⟨o, ho, ?_⟩
        rw [if_neg (not_lt.mpr ho4)]
        simp only [Bool.and_eq_true, Bool.or_eq_true, beq_iff_eq]
        exact ⟨⟨⟨b1, b2⟩, b3⟩, b4⟩
  · -- no ftyp box
    simp only [Bool.false_eq_true, false_iff, specAvifRecognized]
    rintro (⟨s, rfl, hcp⟩ | ⟨-, h4, h5, h6, h7, -⟩)
    · exact hc hcp
    · exact hftyp (by
        simp only [Bool.and_eq_true, beq_iff_eq]
        exact ⟨⟨⟨h4, h5⟩, h6⟩, h7⟩)

/-- C7: an input is recognized as AVIF exactly when the claim's condition
holds (declared `image/avif` type, or `ftyp` box with an `avif`/`avis`
brand in the first 32 bytes); every recognized input is replaced by the
transcoder's PNG output before the model invocation step, and a
transcoder failure yields `INVALID_INPUT` (400) — never a passthrough of
the original bytes. -/
theorem avif_recognition_and_transcode :
    (∀ (buffer : List ℕ) (ct : Option String),
      isAvif buffer ct = true ↔ specAvifRecognized buffer ct)
    ∧ (∀ (buffer : List ℕ) (ct : Option String), isAvif buffer ct = true →
        maybeTranscodeAvif buffer ct .failure = .error ⟨.INVALID_INPUT, 400, none, none⟩ ∧
        normalizeImageBytes buffer ct .failure = .error ⟨.INVALID_INPUT, 400, none, none⟩ ∧
        (∀ png, maybeTranscodeAvif buffer ct (.success png) = .ok png) ∧
        (∀ png, normalizeImageBytes buffer ct (.success png) = .ok (png, "image/png"))) := by
  refine ⟨isAvif_eq_true_iff, ?_⟩
  intro buffer ct h
  refine ⟨?_, ?_, ?_, ?_⟩ <;> simp [maybeTranscodeAvif, normalizeImageBytes, h]

/-- C7 witness: the 12-byte `ftyp`/`avif` header is recognized, a failing
transcode yields `INVALID_INPUT` (400) on both routes, and a succeeding
transcode replaces the bytes with the PNG output. -/
theorem avif_recognition_and_transcode_witness :
    specAvifRecognized avifHeaderExample none ∧
    maybeTranscodeAvif avifHeaderExample none .failure
      = .error ⟨.INVALID_INPUT, 400, none, none⟩ ∧
    normalizeImageBytes avifHeaderExample none .failure
      = .error ⟨.INVALID_INPUT, 400, none, none⟩ ∧
    maybeTranscodeAvif avifHeaderExample none (.success [9]) = .ok [9] ∧
    normalizeImageBytes avifHeaderExample none (.success [9]) = .ok ([9], "image/png") := by
  have hav : isAvif avifHeaderExample none = true := by with_unfolding_all rfl
  obtain ⟨h1, h2, h3, h4⟩ := avif_recognition_and_transcode.2 avifHeaderExample none hav
  exact ⟨(avif_recognition_and_transcode.1 avifHeaderExample none).mp hav,
    h1, h2, h3 [9], h4 [9]⟩

theorem detectMimeType_mem (bytes : List ℕ) (t : String) (h : detectMimeType bytes = some t) :
    t = "image/png" ∨ t = "image/jpeg" ∨ t = "image/gif" ∨ t = "image/webp" := by
  unfold detectMimeType at h
  split_ifs at h <;> simp_all

theorem startsWith_image_ne_empty (r : String) (h : r.startsWith "image/" = true) : r ≠ "" := by
  intro hr
  rw [hr] at h
  exact absurd h (by with_unfolding_all decide)

theorem mime_default_ok (bs : List ℕ) :
    ((detectMimeType bs).getD "image/png") ≠ "" ∧
    ((detectMimeType bs).getD "image/png").startsWith "image/" = true := by
  rcases hd : detectMimeType bs with - | t
  · simp only [hd, Option.getD_none]
    exact ⟨by decide, by with_unfolding_all decide⟩
  · simp only [hd, Option.getD_some]
    rcases detectMimeType_mem bs t hd with rfl | rfl | rfl | rfl <;>
      exact ⟨by decide, by with_unfolding_all decide⟩

/-- C8: the MIME type resolved for a non-AVIF image is always non-empty
and begins with `image/`; a declared type whose normalized form starts
with `image/` is trusted as-is; and when the declared type is absent or
untrustworthy and magic-byte sniffing fails, the type defaults to
`image/png`. -/
theorem mime_resolution :
    (∀ (ct : Option String) (bytes : List ℕ),
      normalizeMimeType ct bytes ≠ "" ∧
      (normalizeMimeType ct bytes).startsWith "image/" = true)
    ∧ (∀ (s : String) (bytes : List ℕ), s ≠ "" →
        ((((s.splitOn ";").headD s).trim).toLower).startsWith "image/" = true →
        normalizeMimeType (some s) bytes = (((s.splitOn ";").headD s).trim).toLower)
    ∧ (∀ (ct : Option String) (bytes : List ℕ), detectMimeType bytes = none →
        (∀ s, ct = some s →
          s = "" ∨ ((((s.splitOn ";").headD s).trim).toLower).startsWith "image/" = false) →
        normalizeMimeType ct bytes = "image/png") := by
  refine ⟨?_, ?_, ?_⟩
  · intro ct bytes
    rcases ct with - | s
    · simpa [normalizeMimeType] using mime_default_ok bytes
    · by_cases hs : s = ""
      · subst hs
        simpa [normalizeMimeType] using mime_default_ok bytes
      · rw [normalizeMimeType, if_pos hs]
        dsimp only
        by_cases hsw : ((((s.splitOn ";").headD s).trim).toLower).startsWith "image/" = true
        · rw [if_pos hsw]
          exact ⟨startsWith_image_ne_empty _ hsw, hsw⟩
        · rw [if_neg hsw]
          exact mime_default_ok bytes
  · intro s bytes hs hsw
    rw [normalizeMimeType, if_pos hs]
    dsimp only
    rw [if_pos hsw]
  · intro ct bytes hd huntrusted
    rcases ct with - | s
    · simp [normalizeMimeType, hd]
    · rcases huntrusted s rfl with rfl | hsw
      · simp [normalizeMimeType, hd]
      · by_cases hs : s = ""
        · subst hs
          simp [normalizeMimeType, hd]
        · rw [normalizeMimeType, if_pos hs]
          dsimp only
          rw [if_neg (by simpa using hsw)]
          simp [hd]

/-- C8 witness: an uppercase declared type with parameters is normalized
and trusted; an untrustworthy declared type with unsniffable bytes
defaults to `image/png`; an absent declared type still resolves to an
`image/`-prefixed value. -/
theorem mime_resolution_witness :
    normalizeMimeType (some "IMAGE/JPEG; charset=utf-8") [] = "image/jpeg" ∧
    normalizeMimeType (some "text/plain") [] = "image/png" ∧
    (normalizeMimeType none [] ≠ "" ∧
      (normalizeMimeType none []).startsWith "image/" = true) := by
  refine ⟨?_, ?_, mime_resolution.1 none []⟩
  · exact (mime_resolution.2.1 "IMAGE/JPEG; charset=utf-8" [] (by decide)
      (by with_unfolding_all rfl)).trans (by with_unfolding_all rfl)
  · refine mime_resolution.2.2 (some "text/plain") [] (by with_unfolding_all rfl) ?_
    intro s hsome
    right
    cases hsome
    with_unfolding_all rfl

/-- C9: on a non-documentation path, a falsy configured secret rejects
with 401 regardless of the header; a falsy header rejects with 401; a
present-but-different header rejects with 403; and the downstream
handler runs exactly when both are present and equal. -/
theorem apiKeyAuth_contract (path : String) (configuredKey providedKey : Option String)
    (hpath : path ∉ publicPaths) :
    (strTruthy configuredKey = false →
      apiKeyAuth path configuredKey providedKey = .reject ⟨.UNAUTHORIZED, 401, none, none⟩)
    ∧ (strTruthy configuredKey = true → strTruthy providedKey = false →
      apiKeyAuth path configuredKey providedKey = .reject ⟨.UNAUTHORIZED, 401, none, none⟩)
    ∧ (∀ ck pk, configuredKey = some ck → providedKey = some pk →
        strTruthy configuredKey = true → strTruthy providedKey = true → pk ≠ ck →
        apiKeyAuth path configuredKey providedKey = .reject ⟨.FORBIDDEN, 403, none, none⟩)
    ∧ (apiKeyAuth path configuredKey providedKey = .proceed ↔
        strTruthy configuredKey = true ∧ strTruthy providedKey = true ∧
          providedKey = configuredKey) := by
  refine ⟨?_, ?_, ?_, ?_⟩
  · intro h
    simp [apiKeyAuth, hpath, h]
  · intro hc hp
    simp [apiKeyAuth, hpath, hc, hp]
  · intro ck pk hck hpk hc hp hne
    subst hck
    subst hpk
    simp [apiKeyAuth, hpath, hc, hp, hne]
  · constructor
    · intro h
      cases hc : strTruthy configuredKey with
      | false => simp [apiKeyAuth, hpath, hc] at h
      | true =>
        cases hp : strTruthy providedKey with
        | false => simp [apiKeyAuth, hpath, hc, hp] at h
        | true =>
          by_cases heq : providedKey = configuredKey
          · exact ⟨rfl, rfl, heq⟩
          · simp [apiKeyAuth, hpath, hc, hp, heq] at h
    · rintro ⟨hc, hp, heq⟩
      simp [apiKeyAuth, hpath, hc, hp, heq]

/-- C9 witness: on the non-documentation path `/ai/run` — missing
secret with a header supplied is 401; missing header is 401; a wrong
header is 403; a matching header proceeds. -/
theorem apiKeyAuth_contract_witness :
    apiKeyAuth "/ai/run" none (some "secret") = .reject ⟨.UNAUTHORIZED, 401, none, none⟩ ∧
    apiKeyAuth "/ai/run" (some "secret") none = .reject ⟨.UNAUTHORIZED, 401, none, none⟩ ∧
    apiKeyAuth "/ai/run" (some "secret") (some "wrong") = .reject ⟨.FORBIDDEN, 403, none, none⟩ ∧
    apiKeyAuth "/ai/run" (some "secret") (some "secret") = .proceed := by
  have hpath : "/ai/run" ∉ publicPaths := by decide
  refine ⟨(apiKeyAuth_contract _ _ _ hpath).1 rfl,
    (apiKeyAuth_contract _ _ _ hpath).2.1 (by decide) rfl,
    (apiKeyAuth_contract _ _ _ hpath).2.2.1 "secret" "wrong" rfl rfl (by decide) (by decide)
      (by decide),
    (apiKeyAuth_contract _ _ _ hpath).2.2.2.mpr ⟨by decide, by decide, rfl⟩⟩

theorem getField_none_of_falsy {p : JsonVal} (ht : jsTruthy p = false) (key : String) :
    getField p key = none := by
  cases p <;> first
    | rfl
    | simp [jsTruthy] at ht

theorem detectPerson_ok_iff (result : JsonVal) (b : Bool) :
    detectPersonOutcome result = .ok b ↔ specObtainedBoolean result b := by
  rcases hx : extractIsPersonResult result with - | p
  · simp [detectPersonOutcome, hx, specObtainedBoolean]
  · cases ht : jsTruthy p with
    | false =>
      have hnone := getField_none_of_falsy ht "isPerson"
      simp [detectPersonOutcome, hx, ht, specObtainedBoolean, hnone]
    | true =>
      rcases hip : getField p "isPerson" with - | v
      · simp [detectPersonOutcome, hx, ht, hip, specObtainedBoolean]
      · cases v <;> simp [detectPersonOutcome, hx, ht, hip, specObtainedBoolean]

theorem detectPerson_error_iff (result : JsonVal) :
    detectPersonOutcome result = .error ⟨.AI_RUN_RESPONSE_ERROR, 502, none, some result⟩ ↔
      ¬ ∃ b, specObtainedBoolean result b := by
  rcases hx : extractIsPersonResult result with - | p
  · simp [detectPersonOutcome, hx, specObtainedBoolean]
  · cases ht : jsTruthy p with
    | false =>
      have hnone := getField_none_of_falsy ht "isPerson"
      simp [detectPersonOutcome, hx, ht, specObtainedBoolean, hnone]
    | true =>
      rcases hip : getField p "isPerson" with - | v
      · simp [detectPersonOutcome, hx, ht, hip, specObtainedBoolean]
      · cases v <;> simp [detectPersonOutcome, hx, ht, hip, specObtainedBoolean]

/-- C2: the extraction step succeeds with boolean `b` exactly when the
unwrap-and-parse cascade obtains a value carrying a boolean `isPerson`
equal to `b`, and fails with `AI_RUN_RESPONSE_ERROR` (502) carrying the
raw reply exactly when no boolean `isPerson` is obtained; the reply text
of the claim parses — via the first-brace-to-last-brace fallback — to
`(isPerson := true)`. -/
theorem llama_isPerson_extraction :
    (∀ (result : JsonVal) (b : Bool),
      detectPersonOutcome result = .ok b ↔ specObtainedBoolean result b)
    ∧ (∀ result : JsonVal,
      detectPersonOutcome result = .error ⟨.AI_RUN_RESPONSE_ERROR, 502, none, some result⟩ ↔
        ¬ ∃ b, specObtainedBoolean result b)
    ∧ parseJsonFromText exampleReplyText = some (.obj [("isPerson", .bool true)])
    ∧ extractIsPersonResult (.obj [("response", .str exampleReplyText)])
        = some (.obj [("isPerson", .bool true)])
    ∧ detectPersonOutcome (.obj [("response", .str exampleReplyText)]) = .ok true := by
  refine ⟨detectPerson_ok_iff, detectPerson_error_iff, ?_, ?_, ?_⟩
  · with_unfolding_all rfl
  · with_unfolding_all rfl
  · with_unfolding_all rfl

